import Mathlib

/-!
Verification of the git-vendor repository: a shallow embedding of its
attribute-line model (`git-set-attr`), its vendor-dependency registry and
manifest operations (`src/lib.rs`), its recursive tree filter
(`git-filter-tree`), and its merge engine (`vendor_merge`), together with
proofs of the specification claims about them.

Rust `&str` values are embedded as `List Char`; the string primitives used by
the source (`trim`, `split_whitespace`, `split_once`, `strip_prefix`, ...)
are defined below, mirroring their Rust semantics.  Fallible operations
return `Except`.  External collaborators (the libgit2 object store and
transport) are passed in as explicit function-valued environment fields.
-/

namespace GitVendor

/-- Embedding of Rust string slices as lists of characters. -/
abbrev Str := List Char

/-- Shorthand turning a Lean string literal into the embedded form. -/
def lit (s : String) : Str := s.data

/-- Embedding of `char::is_whitespace`. -/
def isWs (c : Char) : Bool := c.isWhitespace

/-- Embedding of `str::trim_start`: drop leading whitespace. -/
def trimLeft : Str → Str
  | [] => []
  | c :: rest => if isWs c then trimLeft rest else c :: rest

/-- Embedding of `str::trim_end`: drop trailing whitespace. -/
def trimRight : Str → Str
  | [] => []
  | c :: rest =>
    match trimRight rest with
    | [] => if isWs c then [] else [c]
    | d :: r => c :: d :: r

/-- Embedding of `str::trim`: drop leading and trailing whitespace. -/
def trim (s : Str) : Str := trimRight (trimLeft s)

/-- Embedding of `str::strip_prefix`: remove `p` from the front of `s`
when it is there. -/
def dropPre (p s : Str) : Option Str :=
  match p, s with
  | [], s => some s
  | _ :: _, [] => none
  | pc :: pr, c :: cr => if pc = c then dropPre pr cr else none

/-- Embedding of `str::strip_suffix`. -/
def dropSuf (p s : Str) : Option Str :=
  (dropPre p.reverse s.reverse).map (fun r => r.reverse)

/-- Embedding of `str::split_once(sep)`: split at the first occurrence of the
character `sep`, if any. -/
def splitOnce (sep : Char) : Str → Option (Str × Str)
  | [] => none
  | c :: rest =>
    if c = sep then some ([], rest)
    else (splitOnce sep rest).map (fun p => (c :: p.1, p.2))

/-- One step of the `split_whitespace` grouping fold: whitespace opens a new
word, a regular character is prepended to the word in front of it. -/
def wsStep (c : Char) (acc : List Str) : List Str :=
  if isWs c then [] :: acc
  else
    match acc with
    | [] => [[c]]
    | w :: rest => (c :: w) :: rest

/-- Embedding of `str::split_whitespace`: whitespace-separated words, with
runs of whitespace collapsed and no empty words. -/
def splitWs (s : Str) : List Str :=
  (s.foldr wsStep []).filter (fun w => w ≠ [])

/-- Embedding of `str::split(sep)` for a character separator: keeps empty
pieces, exactly like the Rust iterator. -/
def splitChar (sep : Char) : Str → List Str
  | [] => [[]]
  | c :: rest =>
    let r := splitChar sep rest
    if c = sep then [] :: r
    else
      match r with
      | [] => [[c]]
      | w :: ws => (c :: w) :: ws

/-- Embedding of `str::contains(needle)` for a substring needle. -/
def containsSub (needle : Str) : Str → Bool
  | [] => needle = []
  | c :: rest => (dropPre needle (c :: rest)).isSome || containsSub needle rest

/-- Split at the first occurrence of the substring `sep`, returning the piece
before it and the remainder after it. -/
def splitSubOnce (sep : Str) : Str → Option (Str × Str)
  | [] => if sep = [] then some ([], []) else none
  | c :: rest =>
    match dropPre sep (c :: rest) with
    | some r => some ([], r)
    | none => (splitSubOnce sep rest).map (fun p => (c :: p.1, p.2))

/-- Embedding of `str::trim_end_matches(c)`: drop every trailing `c`. -/
def trimEndMatches (c : Char) (s : Str) : Str :=
  (s.reverse.dropWhile (fun x => x = c)).reverse

/-!
## Attribute Line Model (`crates/git-set-attr/src/lib.rs`)
-/

/-- Embedding of `parse_attribute_string`: classify one gitattributes token
into a `(name, state)` pair, where the state string is one of `set`, `unset`,
`unspecified` or `value:...`, after trimming surrounding whitespace. -/
def parse_attribute_string (attr : Str) : Str × Str :=
  let a := trim attr
  match dropPre ['-'] a with
  | some s => (s, lit "unset")
  | none =>
    match dropPre ['!'] a with
    | some s => (s, lit "unspecified")
    | none =>
      match splitOnce '=' a with
      | some (name, value) =>
        if value = lit "true" then (name, lit "set")
        else if value = lit "false" then (name, lit "unset")
        else (name, lit "value:" ++ value)
      | none => (a, lit "set")

/-- The attribute map built by `filter_new_attributes`, embedding the
`HashMap<String, String>` of the source.  Only `insert` (overwriting) and
`get` are used by the source, so an insertion-ordered association list with
front insertion and first-match lookup is an exact model. -/
abbrev AttrMap := List (Str × Str)

/-- Embedding of `HashMap::insert`: a later insertion shadows an earlier one. -/
def mapInsert (m : AttrMap) (k v : Str) : AttrMap := (k, v) :: m

/-- Embedding of `HashMap::get`. -/
def mapGet (m : AttrMap) (k : Str) : Option Str :=
  match m with
  | [] => none
  | (k', v) :: rest => if k' = k then some v else mapGet rest k

/-- The attribute tokens contributed by one existing manifest line: the line
is trimmed, blank and comment lines contribute nothing, and a line whose
leading pattern equals `pat` contributes its remaining whitespace-separated
tokens.  This is the per-line scan inside `filter_new_attributes` (and the
same shape recurs in `parse_vendor_deps` and `is_vendor_line_for_pattern`). -/
def lineAttrTokens (pat : Str) (line : Str) : List Str :=
  let trimmed := trim line
  if trimmed = [] then []
  else if trimmed.head? = some '#' then []
  else
    let parts := splitWs trimmed
    let linePat := parts.headD []
    if linePat = pat then parts.tail else []

/-- The map-building step of `filter_new_attributes`: parse a token and
insert its `(name, state)` pair. -/
def attrStep (m : AttrMap) (t : Str) : AttrMap :=
  mapInsert m (parse_attribute_string t).1 (parse_attribute_string t).2

/-- Embedding of `filter_new_attributes`: build the name-to-state map from
every existing line matching `pat`, then keep only the candidate attributes
whose `(name, state)` differs from — or is absent from — that map.
Candidates are trimmed, and empty candidates are skipped. -/
def filter_new_attributes (pat : Str) (attributes : List Str) (lines : List Str) : List Str :=
  let existing : AttrMap :=
    lines.foldl (fun m line => (lineAttrTokens pat line).foldl attrStep m) []
  attributes.filterMap (fun attrStr =>
    let a := trim attrStr
    if a = [] then none
    else
      let ns := parse_attribute_string a
      if mapGet existing ns.1 = some ns.2 then none else some a)

/-- Embedding of `validate_attributes` for one token: after trimming, an
empty token is silently accepted (it is skipped later), and otherwise the
name portion must be non-empty and free of whitespace. -/
def attrValid (attr : Str) : Bool :=
  let a := trim attr
  if a = [] then true
  else
    match dropPre ['-'] a with
    | some s => ¬ (s = [] || s.any isWs)
    | none =>
      match dropPre ['!'] a with
      | some s => ¬ (s = [] || s.any isWs)
      | none =>
        match splitOnce '=' a with
        | some (name, _) => ¬ (name = [] || name.any isWs)
        | none => ¬ a.any isWs

/-- Embedding of `validate_attributes` over the whole token list: the source
returns the first error, so success is exactly all tokens being valid. -/
def validate_attributes (attrs : List Str) : Bool := attrs.all attrValid

/-- Embedding of `format_attribute_line`: the pattern followed by every
non-empty trimmed attribute, space separated. -/
def format_attribute_line (pattern : Str) (attributes : List Str) : Str :=
  attributes.foldl (fun line attr =>
    let a := trim attr
    if a = [] then line else line ++ ' ' :: a) pattern

/-- Embedding of the pure core of `set_attr`: validate the tokens, compute
the genuinely new attributes against the current manifest lines, and append
one formatted line when there are any.  The manifest-file discovery and the
file write around this core are external collaborators; the returned value
is the full rewritten manifest content. -/
def set_attr (pattern : Str) (attributes : List Str) (lines : List Str) :
    Except String (List Str) :=
  if validate_attributes attributes = false then .error "Invalid attribute"
  else
    let newAttrs := filter_new_attributes pattern attributes lines
    if newAttrs = [] then .ok lines
    else .ok (lines ++ [format_attribute_line pattern newAttrs])

/-!
## Specification-side restatement of `filterNew` (for the C3 refinement)

The specification describes `filterNew` as building "a mapping from entry
name to its normalized state (later matching lines overwrite earlier ones
for the same name)" and returning "only candidate entries whose normalized
state differs from — or is absent from — that mapping".  The definitions
below follow those words directly: the state of a name is taken from the
last matching token, found by searching the reversed token stream.
-/

/-- All attribute tokens of the lines whose pattern equals `pat`, in line
order then token order. -/
def allMatchingTokens (pat : Str) (lines : List Str) : List Str :=
  match lines with
  | [] => []
  | l :: rest => lineAttrTokens pat l ++ allMatchingTokens pat rest

/-- The normalized state the specification's mapping assigns to `name`:
the state of the last matching token carrying that name, if any. -/
def specStateOf (pat : Str) (lines : List Str) (name : Str) : Option Str :=
  ((allMatchingTokens pat lines).reverse.find?
      (fun t => (parse_attribute_string t).1 = name)).map
    (fun t => (parse_attribute_string t).2)

/-- The specification's `filterNew`: keep exactly the candidates whose
normalized state differs from, or is absent from, the mapping. -/
def filterNewSpec (pat : Str) (attributes : List Str) (lines : List Str) : List Str :=
  attributes.filterMap (fun attrStr =>
    let a := trim attrStr
    if a = [] then none
    else
      let ns := parse_attribute_string a
      if specStateOf pat lines ns.1 = some ns.2 then none else some a)

/-!
## Pattern Registry and manifest operations (`src/lib.rs`)
-/

/-- Embedding of `VendorDep`: a vendored dependency parsed from the
manifest. -/
structure VendorDep where
  name : Str
  pattern : Str
  url : Str
  branch : Option Str
deriving DecidableEq

/-- Embedding of `is_remote_url`: `scheme://...` and SCP-style
`user@host:path` count as remote. -/
def is_remote_url (url : Str) : Bool :=
  if containsSub (lit "://") url then true
  else
    match splitOnce '@' url with
    | none => false
    | some (before, after) =>
      match splitOnce ':' after with
      | none => false
      | some (_, afterColon) =>
        ¬ before.contains '/' && afterColon ≠ []

/-- Embedding of `cleaned.split(sep).nth(1)` for the substring `sep`:
the piece strictly between the first occurrence and the next one (or the
end). -/
def splitNthOne (sep : Str) (s : Str) : Option Str :=
  match splitSubOnce sep s with
  | none => none
  | some (_, rest) =>
    match splitSubOnce sep rest with
    | none => some rest
    | some (a, _) => some a

/-- Embedding of `name_from_url`: extract `owner/repo` from a remote URL by
stripping trailing slashes and a `.git` suffix, taking the path portion
(after `scheme://host/` or after the SCP-style colon), and joining the last
two non-empty path segments. -/
def name_from_url (url : Str) : Option Str :=
  if is_remote_url url = false then none
  else
    let cleaned := trimEndMatches '/' url
    let cleaned := (dropSuf (lit ".git") cleaned).getD cleaned
    let path? : Option Str :=
      match splitNthOne (lit "://") cleaned with
      | some rest => (splitOnce '/' rest).map (fun p => p.2)
      | none =>
        match splitOnce '@' cleaned with
        | none => none
        | some (_, after) => (splitOnce ':' after).map (fun p => p.2)
    match path? with
    | none => none
    | some path =>
      let segments := (splitChar '/' path).filter (fun s => s ≠ [])
      match segments.reverse with
      | repo :: owner :: _ => some (owner ++ '/' :: repo)
      | _ => none

/-- Embedding of `resolve_name`: an explicit name is used as-is (but must be
non-empty); otherwise the name is derived from the URL, and local paths
require an explicit name. -/
def resolve_name (url : Str) (maybeName : Option Str) : Except String Str :=
  match maybeName with
  | some name =>
    if name = [] then .error "Vendor dependency name must not be empty"
    else .ok name
  | none =>
    match name_from_url url with
    | some n => .ok n
    | none => .error "Cannot derive a vendor name from a local path"

/-- Embedding of `vendor_ref_name`. -/
def vendor_ref_name (name : Str) : Str := lit "refs/vendor/" ++ name

/-- The fold state of the attribute scan in `parse_vendor_deps`. -/
structure DepAcc where
  name : Option Str
  url : Option Str
  branch : Option Str
  vendoredFlag : Bool
deriving DecidableEq

/-- One attribute token of the scan in `parse_vendor_deps`: the `vendored`
marker sets the flag, and `vendor-name=` / `vendor-url=` / `vendor-branch=`
record (and overwrite) their values. -/
def depStep (acc : DepAcc) (attr : Str) : DepAcc :=
  if attr = lit "vendored" then { acc with vendoredFlag := true }
  else
    match dropPre (lit "vendor-name=") attr with
    | some v => { acc with name := some v }
    | none =>
      match dropPre (lit "vendor-url=") attr with
      | some v => { acc with url := some v }
      | none =>
        match dropPre (lit "vendor-branch=") attr with
        | some v => { acc with branch := some v }
        | none => acc

/-- Embedding of the per-line body of `parse_vendor_deps`: blank and comment
lines yield nothing; otherwise the first whitespace-separated token is the
pattern, the rest are scanned with `depStep`, and a dependency is produced
only when the `vendored` flag is set and both name and url are present. -/
def parseDepLine (line : Str) : Option VendorDep :=
  let trimmed := trim line
  if trimmed = [] then none
  else if trimmed.head? = some '#' then none
  else
    match splitWs trimmed with
    | [] => none
    | pat :: attrs =>
      let acc := attrs.foldl depStep ⟨none, none, none, false⟩
      if acc.vendoredFlag = false then none
      else
        match acc.name, acc.url with
        | some n, some u => some ⟨n, pat, u, acc.branch⟩
        | _, _ => none

/-- Embedding of `parse_vendor_deps` on the manifest's lines (a missing file
reads as the empty line list). -/
def parse_vendor_deps (lines : List Str) : List VendorDep :=
  lines.filterMap parseDepLine

/-- Embedding of `filter_deps`: exact pattern-string selection, or everything
when no filter is given. -/
def filter_deps (deps : List VendorDep) (filter : Option Str) : List VendorDep :=
  match filter with
  | none => deps
  | some f => deps.filter (fun d => d.pattern = f)

/-- Embedding of `is_vendor_line_for_pattern`: the line's pattern must equal
`pat` exactly and at least one attribute must be vendor-related. -/
def is_vendor_line_for_pattern (line pat : Str) : Bool :=
  let trimmed := trim line
  if trimmed = [] then false
  else if trimmed.head? = some '#' then false
  else
    match splitWs trimmed with
    | [] => false
    | linePat :: parts =>
      if linePat ≠ pat then false
      else
        parts.any (fun attr =>
          attr = lit "vendored"
          || (dropPre (lit "vendor-name=") attr).isSome
          || (dropPre (lit "vendor-url=") attr).isSome
          || (dropPre (lit "vendor-branch=") attr).isSome)

/-- Embedding of the pure core of `remove_vendor_lines`: keep every line
that is not a vendor line for `pat`. -/
def remove_vendor_lines (lines : List Str) (pat : Str) : List Str :=
  lines.filter (fun l => is_vendor_line_for_pattern l pat = false)

/-- Embedding of `track_pattern`: refuse bare repositories, resolve the
dependency name, assemble the `vendored` marker plus `vendor-name=`,
`vendor-url=` and optional `vendor-branch=` attributes, and run `set_attr`
against the manifest lines.  Manifest discovery and the file write are
external collaborators; the result is the rewritten manifest content. -/
def track_pattern (isBare : Bool) (pattern url : Str)
    (maybeBranch maybeName : Option Str) (lines : List Str) :
    Except String (List Str) :=
  if isBare = true then .error "This operation is not supported in a bare repository"
  else
    match resolve_name url maybeName with
    | .error e => .error e
    | .ok name =>
      let nameAttr := lit "vendor-name=" ++ name
      let urlAttr := lit "vendor-url=" ++ url
      let attrs := [lit "vendored", nameAttr, urlAttr] ++
        (match maybeBranch with
         | some b => [lit "vendor-branch=" ++ b]
         | none => [])
      set_attr pattern attrs lines

/-- Embedding of `untrack_pattern`: refuse bare repositories; when the
manifest file does not exist (`none`), return success without creating it or
writing anything; otherwise rewrite it through `remove_vendor_lines`. -/
def untrack_pattern (isBare : Bool) (manifest : Option (List Str)) (pat : Str) :
    Except String (Option (List Str)) :=
  if isBare = true then .error "This operation is not supported in a bare repository"
  else
    match manifest with
    | none => .ok none
    | some lines => .ok (some (remove_vendor_lines lines pat))

/-!
## Tree Filter (`plumbing/git-filter-tree/src/lib.rs`)

Git trees are embedded structurally: a tree object is its ordered entry
list, and two structurally equal values model two objects with the same
content-addressed id.  Blob ids and file modes are abstract numbers.  The
compiled `GlobSet` matcher is passed in as a function `Str → Bool`
(`filter_by_patterns` builds it from the pattern list with OR semantics via
an abstract per-pattern glob matcher, the `globset` collaborator).
-/

mutual
/-- A git object as seen by `filter_tree_recursive`: a blob, a subtree, or
an object of another kind (commit, tag, ...). -/
inductive TObj where
  | blob (id : Nat) : TObj
  | tnode (children : TList) : TObj
  | other : TObj

/-- The ordered entry list of a tree object: each entry has a name, a file
mode and an object. -/
inductive TList where
  | nil : TList
  | cons (name : Str) (mode : Nat) (obj : TObj) (rest : TList) : TList
end

/-- Number of entries of a tree (`Tree::len`). -/
def tlen : TList → Nat
  | .nil => 0
  | .cons _ _ _ rest => tlen rest + 1

/-- Embedding of the `full_path` computation: path segments joined with `/`
from the tree root, with no leading separator at the root. -/
def joinPath (pre name : Str) : Str :=
  if pre = [] then name else pre ++ '/' :: name

mutual
/-- Embedding of the loop of `filter_tree_recursive` over a tree's entries:
each entry is kept, rewritten, or dropped by `filterEntry`, preserving entry
order, names and modes. -/
def filterList (m : Str → Bool) (pre : Str) : TList → TList
  | .nil => .nil
  | .cons name mode obj rest =>
    match filterEntry m (joinPath pre name) obj with
    | none => filterList m pre rest
    | some o => .cons name mode o (filterList m pre rest)

/-- Embedding of the per-entry body of `filter_tree_recursive`: a blob is
kept iff its full path matches; a subtree is recursively filtered and kept
iff the filtered subtree is non-empty; other object kinds are dropped.  (The
source also drops a subtree whose recursive filtering failed in the object
store; the pure embedding has no such failures.) -/
def filterEntry (m : Str → Bool) (path : Str) : TObj → Option TObj
  | .blob id => if m path then some (.blob id) else none
  | .tnode children =>
    let filtered := filterList m path children
    if 0 < tlen filtered then some (.tnode filtered) else none
  | .other => none
end

/-- Embedding of `filter_by_patterns`: an empty pattern set is refused;
otherwise the patterns are compiled into a single OR-matcher (`globMatch`
being the abstract single-pattern glob matcher of the `globset`
collaborator) and the tree is filtered from the root with an empty path
prefix. -/
def filter_by_patterns (globMatch : Str → Str → Bool) (patterns : List Str)
    (t : TList) : Except String TList :=
  if patterns = [] then .error "At least one pattern is required"
  else .ok (filterList (fun path => patterns.any (fun p => globMatch p path)) [] t)

/-!
## Merge Engine (`vendor_merge` in `src/lib.rs`)

The repository's mutable persistent state (index, working area, the
`MERGE_HEAD` / `MERGE_MSG` marker files, created commits and the position of
`HEAD`) is carried explicitly, and the object-store collaborator calls made
by `vendor_merge` (`find_reference`, `find_commit`, `filter_by_patterns`,
`head`, `merge_trees`, `signature`) are fields of a `MergeEnv`.  Trees and
commits are addressed by abstract numeric ids here; `merge_trees` returns
the written merged-tree id directly in the clean case, identifying the
in-memory merge index with the tree `write_tree_to` produces from it.
Every `Error::from_str` exit of the source is one `MErr` constructor; an
error result carries the state at the moment of failure. -/

/-- Embedding of `VendorMergeOpts`. -/
structure VendorMergeOpts where
  no_commit : Bool
  squash : Bool
  message : Option Str
deriving DecidableEq

/-- The commit data `find_commit` returns, as used by `vendor_merge`: its
tree id. -/
structure CommitInfo where
  tree : Nat
deriving DecidableEq

/-- An index entry, as registered for a conflict side. -/
structure IndexEntry where
  path : Str
  oid : Nat
deriving DecidableEq

/-- One conflict record of the merge index: the "ours" and "theirs" entries,
each present or absent. -/
structure ConflictEnt where
  our : Option IndexEntry
  their : Option IndexEntry
deriving DecidableEq

/-- The outcome of the `merge_trees` collaborator: a cleanly merged tree id,
or the conflict set. -/
inductive MergeOutcome where
  | clean (mergedTree : Nat) : MergeOutcome
  | conflicted (conflicts : List ConflictEnt) : MergeOutcome
deriving DecidableEq

/-- A commit created during the operation. -/
structure CommitRec where
  oid : Nat
  parents : List Nat
  tree : Nat
  message : Str
deriving DecidableEq

/-- The repository index as touched by `vendor_merge`: untouched, loaded from
a tree (clean path), or loaded from the head tree with the conflict sides
added (conflict path). -/
inductive IndexRepr where
  | start : IndexRepr
  | fromTree (tree : Nat) : IndexRepr
  | conflictStaged (base : Nat) (entries : List IndexEntry) : IndexRepr
deriving DecidableEq

/-- The working area as touched by `vendor_merge`: untouched, force-checked
out from a tree, or checked out from the conflicted index with conflict
markers permitted. -/
inductive WorkRepr where
  | start : WorkRepr
  | fromTree (tree : Nat) : WorkRepr
  | fromIndexConflicts (base : Nat) (entries : List IndexEntry) : WorkRepr
deriving DecidableEq

/-- The persistent repository state mutated by `vendor_merge`.  `fresh` is
the id supply for newly created commit objects. -/
structure RepoState where
  headCommit : Nat
  headTree : Nat
  index : IndexRepr
  work : WorkRepr
  mergeHead : Option Nat
  mergeMsg : Option Str
  commits : List CommitRec
  fresh : Nat
deriving DecidableEq

/-- The failure exits of `vendor_merge`, one per `Error::from_str` site (the
specification's taxonomy classes them as Unsupported for `bareRepo`,
NotFound for `noDeps` / `refNotFound` / `commitNotFound`, InvalidInput for
`deferredBatch` / `invalidRef` / `filterFailed`, Conflict for `conflicts`,
and IOFailure for the remaining collaborator failures). -/
inductive MErr where
  | bareRepo
  | noDeps
  | deferredBatch
  | refNotFound
  | invalidRef
  | commitNotFound
  | filterFailed
  | headFailed
  | mergeFailed
  | conflicts
  | signatureFailed
deriving DecidableEq

/-- The object-store collaborator calls `vendor_merge` makes, plus the
repository flags and manifest content it reads. -/
structure MergeEnv where
  isBare : Bool
  manifest : List Str
  findRef : Str → Option (Option Nat)
  findCommit : Nat → Option CommitInfo
  filterByPattern : Nat → Str → Option Nat
  headOk : Bool
  mergeTrees : Nat → Nat → Nat → Option MergeOutcome
  signatureOk : Bool

/-- The resolved commit message: the `-m` override, or the default
`Merge vendored dependency: <name>`. -/
def resolved_message (opts : VendorMergeOpts) (dep : VendorDep) : Str :=
  match opts.message with
  | some m => m
  | none => lit "Merge vendored dependency: " ++ dep.name

/-- The index entries registered on the conflict path: for every conflict,
the "ours" entry then the "theirs" entry, each when it exists. -/
def conflictEntries : List ConflictEnt → List IndexEntry
  | [] => []
  | c :: rest => c.our.toList ++ c.their.toList ++ conflictEntries rest

/-- Embedding of the loop body of `vendor_merge` for one dependency:
resolve the vendor ref to a commit, filter its tree by the dependency's
pattern, three-way merge with the head tree as both base and ours, and
either stage the conflict sides, check them out with markers, persist the
merge-in-progress state (`MERGE_HEAD` unless squashing, and `MERGE_MSG`) and
fail with the conflict error — or apply the merged tree to index and working
area and commit it (two parents: current head and the vendor commit) unless
a deferred result was requested, in which case the markers are persisted
instead (`MERGE_HEAD` only when not squashing). -/
def mergeOneDep (env : MergeEnv) (opts : VendorMergeOpts) (dep : VendorDep)
    (st : RepoState) : Except (MErr × RepoState) RepoState :=
  match env.findRef (vendor_ref_name dep.name) with
  | none => .error (.refNotFound, st)
  | some none => .error (.invalidRef, st)
  | some (some vendorOid) =>
    match env.findCommit vendorOid with
    | none => .error (.commitNotFound, st)
    | some vendorCommit =>
      match env.filterByPattern vendorCommit.tree dep.pattern with
      | none => .error (.filterFailed, st)
      | some filteredTree =>
        if env.headOk = false then .error (.headFailed, st)
        else
          match env.mergeTrees st.headTree st.headTree filteredTree with
          | none => .error (.mergeFailed, st)
          | some (.conflicted cs) =>
            let msg := resolved_message opts dep
            let entries := conflictEntries cs
            let st₁ : RepoState :=
              { st with index := .conflictStaged st.headTree entries,
                        work := .fromIndexConflicts st.headTree entries }
            let st₂ := if opts.squash = true then st₁
                       else { st₁ with mergeHead := some vendorOid }
            .error (.conflicts, { st₂ with mergeMsg := some msg })
          | some (.clean mergedTree) =>
            let msg := resolved_message opts dep
            let st₁ : RepoState :=
              { st with index := .fromTree mergedTree, work := .fromTree mergedTree }
            if (opts.no_commit || opts.squash) = true then
              let st₂ := if opts.squash = true then st₁
                         else { st₁ with mergeHead := some vendorOid }
              .ok { st₂ with mergeMsg := some msg }
            else if env.signatureOk = false then .error (.signatureFailed, st₁)
            else
              .ok { st₁ with
                    commits := st₁.commits ++
                      [⟨st₁.fresh, [st.headCommit, vendorOid], mergedTree, msg⟩],
                    headCommit := st₁.fresh,
                    headTree := mergedTree,
                    fresh := st₁.fresh + 1 }

/-- The fail-fast loop of `vendor_merge` over the selected dependencies. -/
def mergeLoop (env : MergeEnv) (opts : VendorMergeOpts) :
    List VendorDep → RepoState → Except (MErr × RepoState) RepoState
  | [], st => .ok st
  | d :: rest, st =>
    match mergeOneDep env opts d st with
    | .error e => .error e
    | .ok st' => mergeLoop env opts rest st'

/-- Embedding of `vendor_merge`: refuse bare repositories, select the
dependencies from the manifest, refuse an empty selection, refuse a deferred
(no-commit or squash) batch of more than one dependency, then merge the
selection in order with fail-fast. -/
def vendor_merge (env : MergeEnv) (maybePattern : Option Str)
    (opts : VendorMergeOpts) (st : RepoState) :
    Except (MErr × RepoState) RepoState :=
  if env.isBare = true then .error (.bareRepo, st)
  else
    let deps := filter_deps (parse_vendor_deps env.manifest) maybePattern
    if deps = [] then .error (.noDeps, st)
    else if (opts.no_commit || opts.squash) = true ∧ 1 < deps.length then
      .error (.deferredBatch, st)
    else mergeLoop env opts deps st

/-!
## Theorems
-/

mutual
/-- Filtering a filtered entry list again with the same matcher and path
prefix changes nothing. -/
theorem filterList_idem (m : Str → Bool) (pre : Str) :
    (l : TList) → filterList m pre (filterList m pre l) = filterList m pre l
  | .nil => rfl
  | .cons name mode obj rest => by
    cases h : filterEntry m (joinPath pre name) obj with
    | none =>
      simp only [filterList, h]
      exact filterList_idem m pre rest
    | some o =>
      simp only [filterList, h, filterEntry_idem m (joinPath pre name) obj o h]
      rw [filterList_idem m pre rest]

/-- An entry kept (possibly rewritten) by the filter is kept unchanged when
filtered again at the same path. -/
theorem filterEntry_idem (m : Str → Bool) (path : Str) :
    (o o' : TObj) → filterEntry m path o = some o' → filterEntry m path o' = some o'
  | .blob i, o', h => by
    by_cases hm : m path
    · simp only [filterEntry, hm, if_true, Option.some.injEq] at h
      subst h
      simp [filterEntry, hm]
    · simp [filterEntry, hm] at h
  | .tnode children, o', h => by
    by_cases hl : 0 < tlen (filterList m path children)
    · simp only [filterEntry, hl, if_true, Option.some.injEq] at h
      subst h
      simp only [filterEntry, filterList_idem m path children, hl, if_true]
    · simp [filterEntry, hl] at h
  | .other, o', h => by simp [filterEntry] at h
end

/-- C6: tree filtering is idempotent.  For every matcher and every non-empty
pattern set, filtering the result of `filter_by_patterns` again with the same
patterns yields the identical tree:
`filter(filter(T, P), P) == filter(T, P)`. -/
theorem c6_filter_idempotent (gm : Str → Str → Bool) (patterns : List Str)
    (t ft : TList) (hp : patterns ≠ [])
    (h : filter_by_patterns gm patterns t = .ok ft) :
    filter_by_patterns gm patterns ft = .ok ft := by
  unfold filter_by_patterns at h ⊢
  rw [if_neg hp] at h ⊢
  injection h with h
  subst h
  exact congrArg Except.ok (filterList_idem _ [] t)

/-- Witness for C6 at a concrete matcher, pattern set and tree. -/
theorem c6_filter_idempotent_witness :
    ([lit "a.txt"] ≠ ([] : List Str)) ∧
    filter_by_patterns (fun p path => p == path) [lit "a.txt"]
      (.cons (lit "a.txt") 33188 (.blob 1)
        (.cons (lit "b.rs") 33188 (.blob 2)
          (.cons (lit "sub") 16384 (.tnode (.cons (lit "c.md") 33188 (.blob 3) .nil))
            .nil))) =
      .ok (.cons (lit "a.txt") 33188 (.blob 1) .nil) ∧
    filter_by_patterns (fun p path => p == path) [lit "a.txt"]
      (.cons (lit "a.txt") 33188 (.blob 1) .nil) =
      .ok (.cons (lit "a.txt") 33188 (.blob 1) .nil) :=
  ⟨by simp, rfl,
   c6_filter_idempotent (fun p path => p == path) [lit "a.txt"]
    (.cons (lit "a.txt") 33188 (.blob 1)
      (.cons (lit "b.rs") 33188 (.blob 2)
        (.cons (lit "sub") 16384 (.tnode (.cons (lit "c.md") 33188 (.blob 3) .nil))
          .nil)))
    (.cons (lit "a.txt") 33188 (.blob 1) .nil) (by simp) rfl⟩

/-- C10: untracking against a missing manifest file in a non-bare repository
succeeds as a no-op for every pattern: the file is not created and nothing
is written. -/
theorem c10_untrack_missing_manifest_noop (pat : Str) :
    untrack_pattern false none pat = .ok none := rfl

/-- C8: tracking pattern `lib/*` with url `https://example.com/o/r.git`, no
branch and no explicit name, against an empty (or absent) manifest, derives
the name `o/r` from the url's last two path segments (stripping `.git`) and
produces exactly one manifest line with the pattern, the vendor marker,
`vendor-name=o/r`, `vendor-url=https://example.com/o/r.git` and no
vendor-branch entry. -/
theorem c8_track_into_empty_manifest :
    name_from_url (lit "https://example.com/o/r.git") = some (lit "o/r") ∧
    track_pattern false (lit "lib/*") (lit "https://example.com/o/r.git") none none [] =
      .ok [lit "lib/* vendored vendor-name=o/r vendor-url=https://example.com/o/r.git"] :=
  ⟨rfl, rfl⟩

/-- C9: when more than one dependency is selected and a deferred (no-commit
or squash) result is requested, `vendor_merge` fails with the invalid
deferred-batch error before merging any dependency, leaving the repository
state exactly as it was. -/
theorem c9_deferred_batch_rejected (env : MergeEnv) (mp : Option Str)
    (opts : VendorMergeOpts) (st : RepoState)
    (hb : env.isBare = false)
    (hs : (opts.no_commit || opts.squash) = true)
    (hl : 1 < (filter_deps (parse_vendor_deps env.manifest) mp).length) :
    vendor_merge env mp opts st = .error (.deferredBatch, st) := by
  have hne : filter_deps (parse_vendor_deps env.manifest) mp ≠ [] := by
    intro h
    rw [h] at hl
    simp at hl
  unfold vendor_merge
  rw [hb]
  simp only [Bool.false_eq_true, if_false, if_neg hne, if_pos (And.intro hs hl)]

/-- Witness for C9: a manifest with two vendored dependencies and a
no-commit request. -/
theorem c9_deferred_batch_rejected_witness :
    (({ isBare := false
        manifest := [lit "pa vendored vendor-name=n1 vendor-url=u1",
                     lit "pb vendored vendor-name=n2 vendor-url=u2"]
        findRef := fun _ => none
        findCommit := fun _ => none
        filterByPattern := fun _ _ => none
        headOk := true
        mergeTrees := fun _ _ _ => none
        signatureOk := true } : MergeEnv).isBare = false) ∧
    ((true || false) = true) ∧
    (1 < (filter_deps (parse_vendor_deps
        [lit "pa vendored vendor-name=n1 vendor-url=u1",
         lit "pb vendored vendor-name=n2 vendor-url=u2"]) none).length) ∧
    vendor_merge
      { isBare := false
        manifest := [lit "pa vendored vendor-name=n1 vendor-url=u1",
                     lit "pb vendored vendor-name=n2 vendor-url=u2"]
        findRef := fun _ => none
        findCommit := fun _ => none
        filterByPattern := fun _ _ => none
        headOk := true
        mergeTrees := fun _ _ _ => none
        signatureOk := true }
      none ⟨true, false, none⟩ ⟨100, 200, .start, .start, none, none, [], 500⟩ =
      .error (.deferredBatch, ⟨100, 200, .start, .start, none, none, [], 500⟩) :=
  ⟨rfl, rfl, by decide,
   c9_deferred_batch_rejected _ none ⟨true, false, none⟩ _ rfl rfl (by decide)⟩

/-!
## Concrete merge environments used by witnesses and counterexamples
-/

/-- A dependency as parsed from the line `pa vendored vendor-name=n1 vendor-url=u1`. -/
def depClean : VendorDep := ⟨lit "n1", lit "pa", lit "u1", none⟩

/-- An object store in which `refs/vendor/n1` resolves to commit 1 with tree
10, filtering tree 10 yields tree 20, and merging it against head tree 200
is clean with merged tree 30. -/
def envClean : MergeEnv :=
  { isBare := false
    manifest := [lit "pa vendored vendor-name=n1 vendor-url=u1"]
    findRef := fun r => if r = lit "refs/vendor/n1" then some (some 1) else none
    findCommit := fun o => if o = 1 then some ⟨10⟩ else none
    filterByPattern := fun t _ => if t = 10 then some 20 else none
    headOk := true
    mergeTrees := fun _ _ th => if th = 20 then some (.clean 30) else none
    signatureOk := true }

/-- Like `envClean` but with a second vendored dependency `n2` whose vendor
ref was never fetched. -/
def envBatch : MergeEnv :=
  { envClean with
    manifest := [lit "pa vendored vendor-name=n1 vendor-url=u1",
                 lit "pb vendored vendor-name=n2 vendor-url=u2"] }

/-- Like `envClean` but the three-way merge reports one conflict on path
`f` with both sides present. -/
def envConflict : MergeEnv :=
  { envClean with
    mergeTrees := fun _ _ th =>
      if th = 20 then some (.conflicted [⟨some ⟨lit "f", 41⟩, some ⟨lit "f", 42⟩⟩]) else none }

/-- An initial repository state: head commit 100 with tree 200, untouched
index and working area, no merge markers, no created commits. -/
def stInit : RepoState := ⟨100, 200, .start, .start, none, none, [], 500⟩

/-- Like `stInit`, but stale merge-in-progress markers from an earlier
interrupted merge are still present. -/
def stStale : RepoState := ⟨100, 200, .start, .start, some 77, some (lit "old"), [], 500⟩

/-!
## C2: the conflict path of the merge engine
-/

/-- C2: for every dependency whose three-way reconciliation has conflicts,
`vendor_merge` registers the "ours" and "theirs" entries in the index for
each conflicted path when each exists, checks the index out to the working
area permitting conflict markers, persists the pending merge-parent
reference unless squashing and the intended commit message, creates no
commit, and fails with the Conflict error; the batch loop stops right
there. -/
theorem c2_conflict_path (env : MergeEnv) (opts : VendorMergeOpts) (dep : VendorDep)
    (st : RepoState) (v : Nat) (ci : CommitInfo) (ft : Nat) (cs : List ConflictEnt)
    (h1 : env.findRef (vendor_ref_name dep.name) = some (some v))
    (h2 : env.findCommit v = some ci)
    (h3 : env.filterByPattern ci.tree dep.pattern = some ft)
    (h4 : env.headOk = true)
    (h5 : env.mergeTrees st.headTree st.headTree ft = some (.conflicted cs)) :
    mergeOneDep env opts dep st = .error (.conflicts,
      { st with index := .conflictStaged st.headTree (conflictEntries cs),
                work := .fromIndexConflicts st.headTree (conflictEntries cs),
                mergeHead := if opts.squash = true then st.mergeHead else some v,
                mergeMsg := some (resolved_message opts dep) }) ∧
    (∀ rest, mergeLoop env opts (dep :: rest) st = .error (.conflicts,
      { st with index := .conflictStaged st.headTree (conflictEntries cs),
                work := .fromIndexConflicts st.headTree (conflictEntries cs),
                mergeHead := if opts.squash = true then st.mergeHead else some v,
                mergeMsg := some (resolved_message opts dep) })) := by
  have hmain : mergeOneDep env opts dep st = .error (.conflicts,
      { st with index := .conflictStaged st.headTree (conflictEntries cs),
                work := .fromIndexConflicts st.headTree (conflictEntries cs),
                mergeHead := if opts.squash = true then st.mergeHead else some v,
                mergeMsg := some (resolved_message opts dep) }) := by
    simp only [mergeOneDep, h1, h2, h3, h4, h5]
    by_cases hsq : opts.squash = true <;> simp [hsq]
  exact ⟨hmain, fun rest => by simp only [mergeLoop, hmain]⟩

/-- Witness for C2: the concrete conflicted environment. -/
theorem c2_conflict_path_witness :
    envConflict.findRef (vendor_ref_name depClean.name) = some (some 1) ∧
    envConflict.findCommit 1 = some ⟨10⟩ ∧
    envConflict.filterByPattern (10 : Nat) depClean.pattern = some 20 ∧
    envConflict.headOk = true ∧
    envConflict.mergeTrees stInit.headTree stInit.headTree 20 =
      some (.conflicted [⟨some ⟨lit "f", 41⟩, some ⟨lit "f", 42⟩⟩]) ∧
    mergeOneDep envConflict ⟨false, false, none⟩ depClean stInit = .error (.conflicts,
      { stInit with
          index := .conflictStaged stInit.headTree
            (conflictEntries [⟨some ⟨lit "f", 41⟩, some ⟨lit "f", 42⟩⟩]),
          work := .fromIndexConflicts stInit.headTree
            (conflictEntries [⟨some ⟨lit "f", 41⟩, some ⟨lit "f", 42⟩⟩]),
          mergeHead := if (⟨false, false, none⟩ : VendorMergeOpts).squash = true
                       then stInit.mergeHead else some 1,
          mergeMsg := some (resolved_message ⟨false, false, none⟩ depClean) }) :=
  ⟨rfl, rfl, rfl, rfl, rfl,
   (c2_conflict_path envConflict ⟨false, false, none⟩ depClean stInit 1 ⟨10⟩ 20
      [⟨some ⟨lit "f", 41⟩, some ⟨lit "f", 42⟩⟩] rfl rfl rfl rfl rfl).1⟩

/-!
## C1: the clean path of the merge engine
-/

/-- C1 counterexample: in immediate mode a conflict-free merge does NOT
clear pre-existing merge-in-progress markers.  Starting from a state whose
`MERGE_HEAD` and `MERGE_MSG` are stale, the clean immediate merge creates
its commit but both markers survive untouched, contradicting the claim's
"clearing any merge-in-progress markers". -/
theorem c1_counterexample :
    mergeOneDep envClean ⟨false, false, none⟩ depClean stStale =
      .ok ⟨500, 30, .fromTree 30, .fromTree 30, some 77, some (lit "old"),
           [⟨500, [100, 1], 30, lit "Merge vendored dependency: n1"⟩], 501⟩ ∧
    (some 77 : Option Nat) ≠ none ∧ (some (lit "old") : Option Str) ≠ none :=
  ⟨rfl, by simp, by simp⟩

/-- C1 (amended): for a single dependency whose reconciliation is
conflict-free, immediate mode creates exactly one commit with two parents
(the current head commit and the vendor commit) and the resolved message,
and leaves the merge-in-progress markers untouched rather than clearing
them; no-commit mode creates zero commits and persists `MERGE_HEAD` and the
message; squash mode never sets `MERGE_HEAD` but always retains the pending
message. -/
theorem c1_clean_path_amended (env : MergeEnv) (dep : VendorDep) (st : RepoState)
    (m : Option Str) (v : Nat) (ci : CommitInfo) (ft mt : Nat)
    (h1 : env.findRef (vendor_ref_name dep.name) = some (some v))
    (h2 : env.findCommit v = some ci)
    (h3 : env.filterByPattern ci.tree dep.pattern = some ft)
    (h4 : env.headOk = true)
    (h5 : env.mergeTrees st.headTree st.headTree ft = some (.clean mt))
    (h6 : env.signatureOk = true) :
    mergeOneDep env ⟨false, false, m⟩ dep st =
      .ok { st with index := .fromTree mt, work := .fromTree mt,
                    commits := st.commits ++
                      [⟨st.fresh, [st.headCommit, v], mt,
                        resolved_message ⟨false, false, m⟩ dep⟩],
                    headCommit := st.fresh, headTree := mt,
                    fresh := st.fresh + 1 } ∧
    mergeOneDep env ⟨true, false, m⟩ dep st =
      .ok { st with index := .fromTree mt, work := .fromTree mt,
                    mergeHead := some v,
                    mergeMsg := some (resolved_message ⟨true, false, m⟩ dep) } ∧
    (∀ nc : Bool, mergeOneDep env ⟨nc, true, m⟩ dep st =
      .ok { st with index := .fromTree mt, work := .fromTree mt,
                    mergeMsg := some (resolved_message ⟨nc, true, m⟩ dep) }) := by
  refine ⟨?_, ?_, fun nc => ?_⟩ <;>
    simp only [mergeOneDep, h1, h2, h3, h4, h5, h6] <;> simp [resolved_message]

/-- Witness for C1 (amended) at the concrete clean environment in all three
modes. -/
theorem c1_clean_path_amended_witness :
    envClean.findRef (vendor_ref_name depClean.name) = some (some 1) ∧
    envClean.findCommit 1 = some ⟨10⟩ ∧
    envClean.filterByPattern (10 : Nat) depClean.pattern = some 20 ∧
    envClean.headOk = true ∧
    envClean.mergeTrees stInit.headTree stInit.headTree 20 = some (.clean 30) ∧
    envClean.signatureOk = true ∧
    mergeOneDep envClean ⟨false, false, none⟩ depClean stInit =
      .ok { stInit with index := .fromTree 30, work := .fromTree 30,
                        commits := stInit.commits ++
                          [⟨stInit.fresh, [stInit.headCommit, 1], 30,
                            resolved_message ⟨false, false, none⟩ depClean⟩],
                        headCommit := stInit.fresh, headTree := 30,
                        fresh := stInit.fresh + 1 } ∧
    mergeOneDep envClean ⟨true, false, none⟩ depClean stInit =
      .ok { stInit with index := .fromTree 30, work := .fromTree 30,
                        mergeHead := some 1,
                        mergeMsg := some (resolved_message ⟨true, false, none⟩ depClean) } :=
  ⟨rfl, rfl, rfl, rfl, rfl, rfl,
   (c1_clean_path_amended envClean depClean stInit none 1 ⟨10⟩ 20 30
      rfl rfl rfl rfl rfl rfl).1,
   (c1_clean_path_amended envClean depClean stInit none 1 ⟨10⟩ 20 30
      rfl rfl rfl rfl rfl rfl).2.1⟩

/-!
## C5: side effects of non-Conflict failures
-/

/-- C5 counterexample: in a batch merge, a non-Conflict failure on a later
dependency does NOT leave the persistent state unmutated.  With two
dependencies, the first merging cleanly (and committing) and the second's
vendor ref missing, `vendor_merge` fails with the non-Conflict ref-not-found
error while the first dependency's commit, index and working-area changes
persist. -/
theorem c5_counterexample :
    vendor_merge envBatch none ⟨false, false, none⟩ stInit =
      .error (.refNotFound,
        ⟨500, 30, .fromTree 30, .fromTree 30, none, none,
         [⟨500, [100, 1], 30, lit "Merge vendored dependency: n1"⟩], 501⟩) ∧
    MErr.refNotFound ≠ MErr.conflicts ∧
    (⟨500, 30, .fromTree 30, .fromTree 30, none, none,
      [⟨500, [100, 1], 30, lit "Merge vendored dependency: n1"⟩], 501⟩ : RepoState) ≠ stInit :=
  ⟨rfl, by simp, by decide⟩

/-- C5 (amended): the failures arising before any merge result is applied
abort with the state unchanged — the bare-repository check, the empty
selection, the deferred-batch validation, and every per-dependency failure
other than the Conflict exit and a missing-signature failure during the
immediate commit; Conflict intentionally mutates, a signature failure occurs
after the clean-path application, and in batches the mutations of earlier,
successfully merged dependencies persist. -/
theorem c5_nonconflict_failures_amended :
    (∀ (env : MergeEnv) (mp : Option Str) (opts : VendorMergeOpts) (st : RepoState),
      env.isBare = true → vendor_merge env mp opts st = .error (.bareRepo, st)) ∧
    (∀ (env : MergeEnv) (mp : Option Str) (opts : VendorMergeOpts) (st : RepoState),
      env.isBare = false → filter_deps (parse_vendor_deps env.manifest) mp = [] →
      vendor_merge env mp opts st = .error (.noDeps, st)) ∧
    (∀ (env : MergeEnv) (mp : Option Str) (opts : VendorMergeOpts) (st : RepoState),
      env.isBare = false → (opts.no_commit || opts.squash) = true →
      1 < (filter_deps (parse_vendor_deps env.manifest) mp).length →
      vendor_merge env mp opts st = .error (.deferredBatch, st)) ∧
    (∀ (env : MergeEnv) (opts : VendorMergeOpts) (dep : VendorDep) (st : RepoState)
       (e : MErr) (st' : RepoState),
      mergeOneDep env opts dep st = .error (e, st') →
      e ≠ .conflicts → e ≠ .signatureFailed → st' = st) := by
  refine ⟨?_, ?_, ?_, ?_⟩
  · intro env mp opts st hb
    unfold vendor_merge
    rw [hb]
    simp
  · intro env mp opts st hb hempty
    unfold vendor_merge
    rw [hb]
    simp only [Bool.false_eq_true, if_false, hempty]
    simp
  · intro env mp opts st hb hs hl
    have hne : filter_deps (parse_vendor_deps env.manifest) mp ≠ [] := by
      intro h
      rw [h] at hl
      simp at hl
    unfold vendor_merge
    rw [hb]
    simp only [Bool.false_eq_true, if_false, if_neg hne, if_pos (And.intro hs hl)]
  · intro env opts dep st e st' h hc hs
    unfold mergeOneDep at h
    repeat' split at h
    all_goals
      simp only [Except.error.injEq, Except.ok.injEq, Prod.mk.injEq,
        reduceCtorEq] at h
    all_goals try exact h.2.symm
    all_goals first
      | exact absurd h.1.symm hc
      | exact absurd h.1.symm hs

/-- Witness for C5 (amended): a missing vendor ref aborts with the state
unchanged. -/
theorem c5_nonconflict_failures_amended_witness :
    mergeOneDep { envClean with findRef := fun _ => none } ⟨false, false, none⟩
      depClean stInit = .error (.refNotFound, stInit) ∧
    MErr.refNotFound ≠ MErr.conflicts ∧
    MErr.refNotFound ≠ MErr.signatureFailed ∧
    stInit = stInit :=
  ⟨rfl, by simp, by simp,
   c5_nonconflict_failures_amended.2.2.2 { envClean with findRef := fun _ => none }
     ⟨false, false, none⟩ depClean stInit .refNotFound stInit rfl
     (by simp) (by simp)⟩

/-!
## C4: the `vendored` marker requirement of manifest parsing
-/

/-- A token other than the `vendored` marker never changes the marker flag
of the dependency scan. -/
theorem depStep_flag (acc : DepAcc) (a : Str) (ha : a ≠ lit "vendored") :
    (depStep acc a).vendoredFlag = acc.vendoredFlag := by
  unfold depStep
  rw [if_neg ha]
  repeat' split
  all_goals rfl

/-- The dependency scan leaves the marker flag false when no token is the
`vendored` marker. -/
theorem depFold_flag (attrs : List Str) :
    ∀ acc : DepAcc, acc.vendoredFlag = false →
    (∀ a ∈ attrs, a ≠ lit "vendored") →
    (attrs.foldl depStep acc).vendoredFlag = false := by
  induction attrs with
  | nil => intro acc h _; exact h
  | cons a rest ih =>
    intro acc h hall
    simp only [List.foldl_cons]
    refine ih _ ?_ (fun b hb => hall b (List.mem_cons_of_mem _ hb))
    rw [depStep_flag acc a (hall a (List.mem_cons_self a rest))]
    exact h

/-- C4 counterexample: a manifest line carrying both `vendor-name=` and
`vendor-url=` but no `vendored` marker yields no dependency record. -/
theorem c4_counterexample :
    parse_vendor_deps [lit "lib/* vendor-name=o/r vendor-url=https://example.com/o/r.git"] =
      [] := rfl

/-- C4 (amended): manifest-line parsing requires the explicit `vendored`
marker.  Any line none of whose whitespace-separated tokens is `vendored`
yields no dependency record, even when it carries `vendor-name=` and
`vendor-url=`; a line with the marker plus both attributes yields a record,
with the branch remaining optional. -/
theorem c4_marker_required_amended (line : Str)
    (h : lit "vendored" ∉ splitWs (trim line)) :
    parseDepLine line = none ∧
    parse_vendor_deps
        [lit "lib/* vendored vendor-name=o/r vendor-url=https://example.com/o/r.git"] =
      [⟨lit "o/r", lit "lib/*", lit "https://example.com/o/r.git", none⟩] ∧
    parse_vendor_deps
        [lit "lib/* vendored vendor-name=o/r vendor-url=https://example.com/o/r.git vendor-branch=main"] =
      [⟨lit "o/r", lit "lib/*", lit "https://example.com/o/r.git", some (lit "main")⟩] := by
  refine ⟨?_, rfl, rfl⟩
  unfold parseDepLine
  by_cases h0 : trim line = []
  · simp [h0]
  · rw [if_neg h0]
    by_cases h1 : (trim line).head? = some '#'
    · rw [if_pos h1]
    · rw [if_neg h1]
      cases hsp : splitWs (trim line) with
      | nil => rfl
      | cons pat attrs =>
        have hall : ∀ a ∈ attrs, a ≠ lit "vendored" := by
          intro a ha heq
          rw [hsp] at h
          exact h (heq ▸ List.mem_cons_of_mem _ ha)
        simp [depFold_flag attrs ⟨none, none, none, false⟩ rfl hall]

/-- Witness for C4 (amended) at the marker-less name+url line. -/
theorem c4_marker_required_amended_witness :
    (lit "vendored" ∉
      splitWs (trim (lit "lib/* vendor-name=o/r vendor-url=https://example.com/o/r.git"))) ∧
    parseDepLine (lit "lib/* vendor-name=o/r vendor-url=https://example.com/o/r.git") = none :=
  ⟨by decide,
   (c4_marker_required_amended
      (lit "lib/* vendor-name=o/r vendor-url=https://example.com/o/r.git") (by decide)).1⟩

/-!
## C7: token classification — trimming and splitting lemmas
-/

/-- `trimLeft` is the identity on a list whose head is not whitespace. -/
theorem trimLeft_of_head (s : Str) (h : ∀ c, s.head? = some c → isWs c = false) :
    trimLeft s = s := by
  cases s with
  | nil => rfl
  | cons c rest => simp [trimLeft, h c rfl]

/-- `trimLeft` is the identity on a whitespace-free list. -/
theorem trimLeft_fix (s : Str) (h : ∀ c ∈ s, isWs c = false) : trimLeft s = s :=
  trimLeft_of_head s (fun c hc => by
    cases s with
    | nil => simp at hc
    | cons d rest =>
      simp only [List.head?_cons, Option.some.injEq] at hc
      exact hc ▸ h d (List.mem_cons_self d rest))

/-- `trimRight` is the identity on a whitespace-free list. -/
theorem trimRight_fix (s : Str) (h : ∀ c ∈ s, isWs c = false) : trimRight s = s := by
  induction s with
  | nil => rfl
  | cons c rest ih =>
    have hr := ih (fun d hd => h d (List.mem_cons_of_mem _ hd))
    unfold trimRight
    rw [hr]
    cases rest with
    | nil => simp [h c (List.mem_cons_self c [])]
    | cons d r => rfl

/-- `trim` is the identity on a whitespace-free list. -/
theorem trim_fix (s : Str) (h : ∀ c ∈ s, isWs c = false) : trim s = s := by
  unfold trim
  rw [trimLeft_fix s h, trimRight_fix s h]

/-- The head of a left-trimmed list is never whitespace. -/
theorem trimLeft_head_not_ws (s : Str) :
    ∀ c, (trimLeft s).head? = some c → isWs c = false := by
  induction s with
  | nil => intro c hc; simp [trimLeft] at hc
  | cons d rest ih =>
    intro c hc
    by_cases hd : isWs d
    · rw [trimLeft, if_pos hd] at hc
      exact ih c hc
    · rw [trimLeft, if_neg hd] at hc
      simp only [List.head?_cons, Option.some.injEq] at hc
      subst hc
      exact Bool.not_eq_true _ ▸ (by simpa using hd)

/-- `trimRight` either empties a list or preserves its head. -/
theorem trimRight_head (s : Str) :
    trimRight s = [] ∨ (trimRight s).head? = s.head? := by
  cases s with
  | nil => exact Or.inl rfl
  | cons c rest =>
    unfold trimRight
    cases trimRight rest with
    | nil =>
      by_cases hc : isWs c
      · exact Or.inl (by simp [hc])
      · exact Or.inr (by simp [hc])
    | cons d r => exact Or.inr rfl

/-- `trimLeft` is idempotent. -/
theorem trimLeft_idem (s : Str) : trimLeft (trimLeft s) = trimLeft s :=
  trimLeft_of_head (trimLeft s) (trimLeft_head_not_ws s)

/-- The cons unfolding of `trimRight`. -/
theorem trimRight_cons (c : Char) (rest : Str) :
    trimRight (c :: rest) =
      (match trimRight rest with
       | [] => if isWs c then [] else [c]
       | d :: r => c :: d :: r) := rfl

/-- `trimRight` is idempotent. -/
theorem trimRight_idem (s : Str) : trimRight (trimRight s) = trimRight s := by
  induction s with
  | nil => rfl
  | cons c rest ih =>
    cases hr : trimRight rest with
    | nil =>
      rw [trimRight_cons, hr]
      by_cases hc : isWs c
      · show trimRight (if isWs c then [] else [c]) = if isWs c then [] else [c]
        rw [if_pos hc]
        rfl
      · show trimRight (if isWs c then [] else [c]) = if isWs c then [] else [c]
        rw [if_neg hc]
        show (if isWs c then [] else [c]) = [c]
        rw [if_neg hc]
    | cons d r =>
      have h2 : trimRight (d :: r) = d :: r := by rw [← hr, ih, hr]
      rw [trimRight_cons, hr]
      show trimRight (c :: d :: r) = c :: d :: r
      rw [trimRight_cons, h2]

/-- `trim` is idempotent, so classification is insensitive to pre-trimmed
input. -/
theorem trim_idem (s : Str) : trim (trim s) = trim s := by
  unfold trim
  have hfix : trimLeft (trimRight (trimLeft s)) = trimRight (trimLeft s) := by
    cases trimRight_head (trimLeft s) with
    | inl he => rw [he]; rfl
    | inr hh =>
      refine trimLeft_of_head _ (fun c hc => ?_)
      exact trimLeft_head_not_ws s c (hh ▸ hc)
  rw [hfix, trimRight_idem]

/-- `splitOnce` finds nothing in a list free of the separator. -/
theorem splitOnce_of_not_mem (sep : Char) (s : Str) (h : ∀ c ∈ s, c ≠ sep) :
    splitOnce sep s = none := by
  induction s with
  | nil => rfl
  | cons c rest ih =>
    unfold splitOnce
    rw [if_neg (h c (List.mem_cons_self c rest)),
        ih (fun d hd => h d (List.mem_cons_of_mem _ hd))]
    rfl

/-- `splitOnce` splits at the first separator occurrence. -/
theorem splitOnce_append (sep : Char) (xs ys : Str) (h : ∀ c ∈ xs, c ≠ sep) :
    splitOnce sep (xs ++ sep :: ys) = some (xs, ys) := by
  induction xs with
  | nil => simp [splitOnce]
  | cons c rest ih =>
    have hc := h c (List.mem_cons_self c rest)
    have ih' := ih (fun d hd => h d (List.mem_cons_of_mem _ hd))
    simp [splitOnce, hc, ih']

/-- A single-character `strip_prefix` fails when the head differs. -/
theorem dropPre_char_none (c : Char) (s : Str) (h : s.head? ≠ some c) :
    dropPre [c] s = none := by
  cases s with
  | nil => rfl
  | cons d rest =>
    have hcd : ¬ c = d := fun he => h (by simp [he])
    simp [dropPre, hcd]

/-- The head of a non-empty list survives appending. -/
theorem head?_append_of_ne (n rest : Str) (hn : n ≠ []) :
    (n ++ rest).head? = n.head? := by
  cases n with
  | nil => exact absurd rfl hn
  | cons c cr => rfl

/-- C7: attribute-token classification.  For whitespace-free names (not
starting with `-` or `!`, containing no `=`): `name` and `name=true` both
classify as Set; `-name` and `name=false` both classify as Unset; `!name`
classifies as Unspecified; `name=value` with a value other than `true` and
`false` classifies as Value(value); and classification first trims
leading/trailing whitespace, so any token classifies exactly like its
trimmed form. -/
theorem c7_token_classification (n v t : Str)
    (hn : n ≠ [])
    (hnw : ∀ c ∈ n, isWs c = false)
    (hne : ∀ c ∈ n, c ≠ '=')
    (hh1 : n.head? ≠ some '-')
    (hh2 : n.head? ≠ some '!')
    (hvw : ∀ c ∈ v, isWs c = false)
    (hvt : v ≠ lit "true") (hvf : v ≠ lit "false") :
    parse_attribute_string n = (n, lit "set") ∧
    parse_attribute_string (n ++ lit "=true") = (n, lit "set") ∧
    parse_attribute_string ('-' :: n) = (n, lit "unset") ∧
    parse_attribute_string (n ++ lit "=false") = (n, lit "unset") ∧
    parse_attribute_string ('!' :: n) = (n, lit "unspecified") ∧
    parse_attribute_string (n ++ '=' :: v) = (n, lit "value:" ++ v) ∧
    parse_attribute_string t = parse_attribute_string (trim t) := by
  have hwEq : isWs '=' = false := by decide
  have hEqTok : ∀ (w : Str), (∀ c ∈ w, isWs c = false) →
      ∀ c ∈ n ++ '=' :: w, isWs c = false := by
    intro w hw c hc
    rcases List.mem_append.mp hc with hcn | hcw
    · exact hnw c hcn
    · rcases List.mem_cons.mp hcw with he | hcw
      · exact he ▸ hwEq
      · exact hw c hcw
  have hsplit : ∀ (w : Str), splitOnce '=' (n ++ '=' :: w) = some (n, w) :=
    fun w => splitOnce_append '=' n w hne
  have hhead : ∀ (w : Str), (n ++ '=' :: w).head? = n.head? :=
    fun w => head?_append_of_ne n ('=' :: w) hn
  have hvalCase : ∀ (w : Str), (∀ c ∈ w, isWs c = false) →
      parse_attribute_string (n ++ '=' :: w) =
        (if w = lit "true" then (n, lit "set")
         else if w = lit "false" then (n, lit "unset")
         else (n, lit "value:" ++ w)) := by
    intro w hw
    simp only [parse_attribute_string]
    rw [trim_fix _ (hEqTok w hw),
        dropPre_char_none '-' _ (by rw [hhead w]; exact hh1),
        dropPre_char_none '!' _ (by rw [hhead w]; exact hh2),
        hsplit w]
  refine ⟨?_, ?_, ?_, ?_, ?_, ?_, ?_⟩
  · simp only [parse_attribute_string]
    rw [trim_fix n hnw, dropPre_char_none '-' n hh1, dropPre_char_none '!' n hh2,
        splitOnce_of_not_mem '=' n hne]
  · have := hvalCase (lit "true") (by decide)
    rw [show n ++ lit "=true" = n ++ '=' :: lit "true" from rfl, this, if_pos rfl]
  · have hdash : ∀ c ∈ '-' :: n, isWs c = false := by
      intro c hc
      rcases List.mem_cons.mp hc with he | hc
      · exact he ▸ (by decide)
      · exact hnw c hc
    simp only [parse_attribute_string]
    rw [trim_fix _ hdash]
    rfl
  · have := hvalCase (lit "false") (by decide)
    rw [show n ++ lit "=false" = n ++ '=' :: lit "false" from rfl, this, if_neg ?hf, if_pos rfl]
    case hf => decide
  · have hbang : ∀ c ∈ '!' :: n, isWs c = false := by
      intro c hc
      rcases List.mem_cons.mp hc with he | hc
      · exact he ▸ (by decide)
      · exact hnw c hc
    simp only [parse_attribute_string]
    rw [trim_fix _ hbang, dropPre_char_none '-' _ (by simp)]
    rfl
  · rw [hvalCase v hvw, if_neg hvt, if_neg hvf]
  · simp only [parse_attribute_string, trim_idem]

/-- Witness for C7 at the token name `diff`, the value `lfs` and a
whitespace-padded token. -/
theorem c7_token_classification_witness :
    (lit "diff" ≠ ([] : Str)) ∧
    (∀ c ∈ lit "diff", isWs c = false) ∧
    (∀ c ∈ lit "diff", c ≠ '=') ∧
    ((lit "diff").head? ≠ some '-') ∧
    ((lit "diff").head? ≠ some '!') ∧
    (∀ c ∈ lit "lfs", isWs c = false) ∧
    (lit "lfs" ≠ lit "true") ∧ (lit "lfs" ≠ lit "false") ∧
    parse_attribute_string (lit "diff") = (lit "diff", lit "set") ∧
    parse_attribute_string (lit "diff=true") = (lit "diff", lit "set") ∧
    parse_attribute_string (lit "-diff") = (lit "diff", lit "unset") ∧
    parse_attribute_string (lit "  text  ") = parse_attribute_string (trim (lit "  text  ")) :=
  ⟨by decide, by decide, by decide, by decide, by decide, by decide, by decide, by decide,
   (c7_token_classification (lit "diff") (lit "lfs") (lit "  text  ")
      (by decide) (by decide) (by decide) (by decide) (by decide)
      (by decide) (by decide) (by decide)).1,
   (c7_token_classification (lit "diff") (lit "lfs") (lit "  text  ")
      (by decide) (by decide) (by decide) (by decide) (by decide)
      (by decide) (by decide) (by decide)).2.1,
   (c7_token_classification (lit "diff") (lit "lfs") (lit "  text  ")
      (by decide) (by decide) (by decide) (by decide) (by decide)
      (by decide) (by decide) (by decide)).2.2.1,
   (c7_token_classification (lit "diff") (lit "lfs") (lit "  text  ")
      (by decide) (by decide) (by decide) (by decide) (by decide)
      (by decide) (by decide) (by decide)).2.2.2.2.2.2⟩

/-!
## C3: `filterNew` is a semantic set-difference
-/

/-- `find?` over an append searches the left part first. -/
theorem find?_app {α : Type} (p : α → Bool) (l1 l2 : List α) :
    (l1 ++ l2).find? p =
      (match l1.find? p with
       | some x => some x
       | none => l2.find? p) := by
  induction l1 with
  | nil => rfl
  | cons a rest ih =>
    by_cases hp : p a = true
    · simp [List.find?_cons, hp]
    · simp [List.find?_cons, hp, ih]

/-- Looking up a key in the map built by folding `attrStep` returns the
state of the last token with that name, falling back to the initial map. -/
theorem mapGet_foldl_attrStep (toks : List Str) :
    ∀ (m0 : AttrMap) (k : Str),
      mapGet (toks.foldl attrStep m0) k =
        (match toks.reverse.find? (fun t => (parse_attribute_string t).1 = k) with
         | some t => some (parse_attribute_string t).2
         | none => mapGet m0 k) := by
  induction toks with
  | nil => intro m0 k; rfl
  | cons t rest ih =>
    intro m0 k
    simp only [List.foldl_cons, List.reverse_cons]
    rw [ih, find?_app]
    cases hf : rest.reverse.find? (fun u => decide ((parse_attribute_string u).1 = k)) with
    | some u => rfl
    | none =>
      simp only [List.find?]
      by_cases hk : (parse_attribute_string t).1 = k
      · simp [attrStep, mapInsert, mapGet, hk]
      · simp [attrStep, mapInsert, mapGet, hk]

/-- Folding the per-line scans over all lines equals folding over the
flattened stream of matching tokens. -/
theorem foldl_lines_eq_tokens (pat : Str) (lines : List Str) :
    ∀ m0 : AttrMap,
      lines.foldl (fun m line => (lineAttrTokens pat line).foldl attrStep m) m0 =
        (allMatchingTokens pat lines).foldl attrStep m0 := by
  induction lines with
  | nil => intro m0; rfl
  | cons l rest ih =>
    intro m0
    simp only [List.foldl_cons, allMatchingTokens, List.foldl_append]
    exact ih _

/-- The map the source builds agrees pointwise with the specification's
"later matching lines overwrite earlier ones" mapping. -/
theorem existing_eq_specState (pat : Str) (lines : List Str) (k : Str) :
    mapGet (lines.foldl (fun m line => (lineAttrTokens pat line).foldl attrStep m) []) k =
      specStateOf pat lines k := by
  rw [foldl_lines_eq_tokens, mapGet_foldl_attrStep]
  unfold specStateOf
  cases hf : (allMatchingTokens pat lines).reverse.find?
      (fun t => decide ((parse_attribute_string t).1 = k)) with
  | some t => simp [hf]
  | none => simp [hf, mapGet]

/-- C3: `filter_new_attributes` is the specification's semantic
set-difference — it scans only the existing lines whose pattern equals the
given pattern, builds the name-to-normalized-state mapping in which later
matching lines overwrite earlier ones, and returns exactly the candidates
whose normalized state differs from or is absent from that mapping.  In
particular, with existing `diff` (state Set) on a pattern, the candidate
`diff=true` yields no new entries, `-diff` is returned as new, and a changed
value (`filter=foo` vs `filter=bar`) is novel. -/
theorem c3_filter_new_semantic_set_difference :
    (∀ (pat : Str) (attrs lines : List Str),
      filter_new_attributes pat attrs lines = filterNewSpec pat attrs lines) ∧
    filter_new_attributes (lit "P") [lit "diff=true"] [lit "P diff"] = [] ∧
    filter_new_attributes (lit "P") [lit "-diff"] [lit "P diff"] = [lit "-diff"] ∧
    filter_new_attributes (lit "P") [lit "filter=bar"] [lit "P filter=foo"] =
      [lit "filter=bar"] := by
  refine ⟨?_, rfl, rfl, rfl⟩
  intro pat attrs lines
  simp only [filter_new_attributes, filterNewSpec, existing_eq_specState]

end GitVendor
